import Mathlib

/-!
Shallow embedding of the deck/draw engine of `src/card-drawer-vite/src/App.tsx`
(the card-drawer single-page application), together with proofs of the
behavioural properties stated in the design document.

Modelling conventions:
* `Math.floor(Math.random() * n)` with `n > 0` is modelled as `r % n` for an
  oracle natural `r`; the expressible values are exactly the interval `[0, n)`,
  which is the exact range of the JavaScript expression.
* `Date.now()` and the random id suffix `Math.random().toString(36).slice(2, 8)`
  are modelled as oracle arguments `now : Nat` and `suffix : String`.
* React state updates within one handler are merged into a single atomic state
  transition, matching the event-driven atomicity described in the design.
-/

/-- A parsed CSV row: an ordered mapping from field name to field value
(`type Row = Record<string, string>` fed by PapaParse with `header: true`). -/
abbrev Row := List (String × String)

/-- The four fixed categories (`type Category = keyof DataBundle`). -/
inductive Category where
  | characters
  | items
  | locations
  | quests
deriving DecidableEq

/-- `CATEGORY_OPTIONS`: the category keys paired with their display labels. -/
def CATEGORY_OPTIONS : List (Category × String) :=
  [(Category.characters, "Characters"), (Category.items, "Items"),
   (Category.locations, "Locations"), (Category.quests, "Quests")]

/-- `CATEGORY_ORDER = CATEGORY_OPTIONS.map((option) => option.key)`. -/
def CATEGORY_ORDER : List Category := CATEGORY_OPTIONS.map (fun option => option.1)

/-- `CATEGORY_MATCHES`: the filename tokens recognised for each category. -/
def CATEGORY_MATCHES : Category → List String
  | Category.characters => ["characters", "character"]
  | Category.items => ["items", "item"]
  | Category.locations => ["locations", "location"]
  | Category.quests => ["quests", "quest"]

/-- The raw JavaScript key of a category, used by `getCategoryLabel` as the
`?? category` fallback. -/
def categoryKey : Category → String
  | Category.characters => "characters"
  | Category.items => "items"
  | Category.locations => "locations"
  | Category.quests => "quests"

/-- `getCategoryLabel`: looks the category up in `CATEGORY_OPTIONS` and falls
back to the raw key when absent. -/
def getCategoryLabel (category : Category) : String :=
  ((CATEGORY_OPTIONS.find? (fun option => option.1 == category)).map
    (fun option => option.2)).getD (categoryKey category)

/-- ASCII case folding of one character, as `String.prototype.toLowerCase`
acts on the ASCII range (category tokens and the filenames of interest are
ASCII). -/
def lowerChar (c : Char) : Char :=
  if 65 ≤ c.toNat ∧ c.toNat ≤ 90 then Char.ofNat (c.toNat + 32) else c

/-- `name.toLowerCase()` on an ASCII string. -/
def strToLower (s : String) : String :=
  String.mk (s.data.map lowerChar)

/-- JavaScript `String.prototype.includes`: `t` occurs as a contiguous
substring of `s`. -/
def strIncludes (s t : String) : Bool :=
  (List.range (s.length + 1)).any (fun i => t.data.isPrefixOf (s.data.drop i))

/-- `detectCategoryFromFilename`: the first category in `CATEGORY_ORDER` one of
whose tokens occurs in the lowercased filename, `none` when no token matches. -/
def detectCategoryFromFilename (name : String) : Option Category :=
  let lower := strToLower name
  CATEGORY_ORDER.find?
    (fun category => (CATEGORY_MATCHES category).any (fun token => strIncludes lower token))

/-- A drawn card (`type Drawn = { id; index; row; category }`). -/
structure Drawn where
  id : String
  index : Nat
  row : Row
  category : Category
deriving DecidableEq

/-- The engine state held by `App`: the four tables, the repeat mode, the draw
history (most recent first), the remaining pool and the selected category. -/
structure EngineState where
  data : Category → List Row
  allowRepeats : Bool
  drawn : List Drawn
  remaining : List Nat
  selectedCategory : Category

/-- `minLen`: the length of the selected category's table. -/
def minLen (s : EngineState) : Nat := (s.data s.selectedCategory).length

/-- `allLoaded = minLen > 0`. -/
abbrev allLoaded (s : EngineState) : Prop := 0 < minLen s

/-- The pool-repopulation `useEffect`: whenever the selected table is non-empty
and the pool is empty, repopulate the pool with the full index range. -/
def ensurePoolPopulated (s : EngineState) : EngineState :=
  if allLoaded s ∧ s.remaining.length = 0 then
    { s with remaining := List.range (minLen s) }
  else s

/-- `selectCategory`: set the selected category and empty the pool (it is then
lazily repopulated by `ensurePoolPopulated`). -/
def selectCategory (category : Category) (s : EngineState) : EngineState :=
  { s with selectedCategory := category, remaining := [] }

/-- `handleLoad(key)(rows)`: replace one table, clear the pool and the
history. -/
def handleLoad (key : Category) (rows : List Row) (s : EngineState) : EngineState :=
  { s with data := fun c => if c = key then rows else s.data c,
           remaining := [], drawn := [] }

/-- The drawn-card id `` `${index}-${Date.now()}-${Math.random().toString(36).slice(2, 8)}` ``. -/
def mkId (index : Nat) (now : Nat) (suffix : String) : String :=
  toString index ++ "-" ++ toString now ++ "-" ++ suffix

/-- `drawOne`: no-op unless the selected table is non-empty; with repeats the
index is uniform over the table, without repeats a uniformly chosen pool entry
is drawn and removed from the pool; the new card is prepended to the history. -/
def drawOne (r : Nat) (now : Nat) (suffix : String) (s : EngineState) : EngineState :=
  if ¬ allLoaded s ∨ minLen s = 0 then s
  else
    if s.allowRepeats then
      let index := r % minLen s
      let row := (s.data s.selectedCategory).getD index []
      { s with drawn := { id := mkId index now suffix, index := index, row := row,
                          category := s.selectedCategory } :: s.drawn }
    else
      if s.remaining.length = 0 then s
      else
        let rIdx := r % s.remaining.length
        let index := s.remaining.getD rIdx 0
        let newRemaining := s.remaining.eraseIdx rIdx
        let row := (s.data s.selectedCategory).getD index []
        { s with remaining := newRemaining,
                 drawn := { id := mkId index now suffix, index := index, row := row,
                            category := s.selectedCategory } :: s.drawn }

/-- `reshuffle`: reset the pool to the full index range of the selected table. -/
def reshuffle (s : EngineState) : EngineState :=
  if ¬ allLoaded s then s
  else { s with remaining := List.range (minLen s) }

/-- `clearAllCards`: empty the history. -/
def clearAllCards (s : EngineState) : EngineState :=
  { s with drawn := [] }

/-- The `onDismiss` handler: `setDrawn((d) => d.filter((c) => c.id !== removeId))`. -/
def dismiss (removeId : String) (s : EngineState) : EngineState :=
  { s with drawn := s.drawn.filter (fun c => c.id != removeId) }

/-- The oracle consumed by one `drawOne` call: the random draw value, the
timestamp and the random id suffix. -/
abbrev Oracle := Nat × Nat × String

/-- Bare composition of `drawOne` calls, with no pool-repopulation effect
between them: an analysis device for a single pool lifetime. The sequence the
running program executes is `drawManyApp`, which interleaves the effect. -/
def drawMany (os : List Oracle) (s : EngineState) : EngineState :=
  os.foldl (fun st o => drawOne o.1 o.2.1 o.2.2 st) s

/-- One user-visible draw as the program executes it: the `drawOne` click
handler followed by the pool-repopulation `useEffect`, which runs after every
state change and refills an emptied pool while the selected table is
non-empty. -/
def drawAppStep (o : Oracle) (s : EngineState) : EngineState :=
  ensurePoolPopulated (drawOne o.1 o.2.1 o.2.2 s)

/-- A sequence of user draws in the full program semantics: every draw is
followed by the pool-repopulation effect. -/
def drawManyApp (os : List Oracle) (s : EngineState) : EngineState :=
  os.foldl (fun st o => drawAppStep o st) s

/-- `addPip = () => setPips((n) => Math.min(10, n + 1))`. -/
def addPip (n : Nat) : Nat := min 10 (n + 1)

/-- `clearPips = () => setPips(0)`. -/
def clearPips (_ : Nat) : Nat := 0

/-- The initial pips state of a freshly rendered card: `useState<number>(0)`. -/
def initialPips : Nat := 0

/-- A marker operation on one card: the add-pip button or the clear button. -/
inductive MarkerOp where
  | add
  | clear

/-- Run a sequence of marker operations on a card's pips counter. -/
def runMarkerOps (ops : List MarkerOp) (n : Nat) : Nat :=
  ops.foldl (fun m op => match op with
    | MarkerOp.add => addPip m
    | MarkerOp.clear => clearPips m) n

/-- Accumulator of `handleBulkUpload`: the report lists, the staged `newData`
patch, the assigned-category set, the per-category assignment counts and the
queue of unmatched files. -/
structure BulkAcc where
  assignments : List String
  failures : List String
  skipped : List String
  newData : Category → Option (List Row)
  assigned : Category → Bool
  assignedCounts : Category → Nat
  unmatched : List (String × List Row)

/-- The empty accumulator at the start of `handleBulkUpload`. -/
def bulkInit : BulkAcc :=
  { assignments := [], failures := [], skipped := [],
    newData := fun _ => none, assigned := fun _ => false,
    assignedCounts := fun _ => 0, unmatched := [] }

/-- One step of the first `parsed.forEach` pass: record a parse failure, assign
a filename-matched file to its detected category (noting overrides), or queue
the file as unmatched. -/
def bulkMatchStep (acc : BulkAcc) (file : String × Option (List Row)) : BulkAcc :=
  match file.2 with
  | none => { acc with failures := acc.failures ++ [file.1] }
  | some rows =>
    match detectCategoryFromFilename file.1 with
    | some detected =>
      let prevCount := acc.assignedCounts detected
      let overrideNote := if 0 < prevCount then " (overrides previous)" else ""
      { acc with
        newData := fun c => if c = detected then some rows else acc.newData c,
        assigned := fun c => if c = detected then true else acc.assigned c,
        assignedCounts := fun c => if c = detected then prevCount + 1 else acc.assignedCounts c,
        assignments :=
          acc.assignments ++ [file.1 ++ " → " ++ getCategoryLabel detected ++ overrideNote] }
    | none => { acc with unmatched := acc.unmatched ++ [(file.1, rows)] }

/-- One step of the second `unmatched.forEach` pass: shift the next fallback
category off the queue, or report the file as skipped when the queue is empty. -/
def bulkFallbackStep (st : BulkAcc × List Category) (file : String × List Row) :
    BulkAcc × List Category :=
  match st.2 with
  | [] => ({ st.1 with skipped := st.1.skipped ++ [file.1] }, [])
  | fallbackCategory :: rest =>
    ({ st.1 with
       newData := fun c => if c = fallbackCategory then some file.2 else st.1.newData c,
       assigned := fun c => if c = fallbackCategory then true else st.1.assigned c,
       assignments := st.1.assignments ++
         [file.1 ++ " → " ++ getCategoryLabel fallbackCategory ++ " (default)"] }, rest)

/-- The pure core of `handleBulkUpload`: `parsed` holds one entry per selected
`.csv` file in arrival order, `none` standing for a parse failure. -/
def handleBulkUpload (parsed : List (String × Option (List Row))) : BulkAcc :=
  let acc := parsed.foldl bulkMatchStep bulkInit
  let fallbackQueue := CATEGORY_ORDER.filter (fun category => ! acc.assigned category)
  (acc.unmatched.foldl bulkFallbackStep (acc, fallbackQueue)).1

/-- Applying a bulk-upload result to the engine state: when any category was
staged, merge `newData` over the previous tables and clear pool and history. -/
def applyBulk (acc : BulkAcc) (s : EngineState) : EngineState :=
  if CATEGORY_ORDER.any (fun c => (acc.newData c).isSome) then
    { s with data := fun c => (acc.newData c).getD (s.data c),
             remaining := [], drawn := [] }
  else s

/-! ### Concrete states used as test vectors -/

/-- A state with the three-row table `["A", "B", "C"]` loaded for characters,
repeats off, a freshly populated pool and an empty history. -/
def threeRowState : EngineState :=
  { data := fun c => if c = Category.characters then
      [[("value", "A")], [("value", "B")], [("value", "C")]] else [],
    allowRepeats := false, drawn := [], remaining := [0, 1, 2],
    selectedCategory := Category.characters }

/-- A state with a one-row characters table, repeats on, empty history. -/
def oneRowState : EngineState :=
  { data := fun c => if c = Category.characters then [[("value", "A")]] else [],
    allowRepeats := true, drawn := [], remaining := [0],
    selectedCategory := Category.characters }

/-- A card used twice in `twinIdState`. -/
def twinCard : Drawn :=
  { id := "x", index := 0, row := [], category := Category.items }

/-- A history holding two cards with the same id. -/
def twinIdState : EngineState :=
  { data := fun _ => [], allowRepeats := false, drawn := [twinCard, twinCard],
    remaining := [], selectedCategory := Category.characters }

/-- A history holding two cards with distinct ids. -/
def twoCardState : EngineState :=
  { data := fun _ => [], allowRepeats := false,
    drawn := [{ id := "a", index := 0, row := [], category := Category.items },
              { id := "b", index := 1, row := [], category := Category.items }],
    remaining := [], selectedCategory := Category.characters }

/-- The pristine state: no tables loaded. -/
def emptyState : EngineState :=
  { data := fun _ => [], allowRepeats := false, drawn := [], remaining := [],
    selectedCategory := Category.characters }

/-- The bulk-upload batch of the design document's example: only
`items_v2.csv` matches a category token. -/
def exampleBatch : List (String × Option (List Row)) :=
  [("monsters.csv", some [[("n", "m")]]),
   ("items_v2.csv", some [[("n", "i")]]),
   ("random.csv", some [[("n", "r")]])]

/-! ### Helper lemmas about `drawOne` and `drawMany` -/

/-- `drawOne` never touches the tables, the selected category or the repeat
mode. -/
theorem drawOne_frame (r now : Nat) (suffix : String) (s : EngineState) :
    (drawOne r now suffix s).data = s.data ∧
    (drawOne r now suffix s).selectedCategory = s.selectedCategory ∧
    (drawOne r now suffix s).allowRepeats = s.allowRepeats := by
  unfold drawOne
  split
  · exact ⟨rfl, rfl, rfl⟩
  · split
    · exact ⟨rfl, rfl, rfl⟩
    · split
      · exact ⟨rfl, rfl, rfl⟩
      · exact ⟨rfl, rfl, rfl⟩

/-- `drawOne` is the identity when the selected table is empty. -/
theorem drawOne_of_minLen_zero (r now : Nat) (suffix : String) (s : EngineState)
    (h : minLen s = 0) : drawOne r now suffix s = s := by
  unfold drawOne
  rw [if_pos (Or.inr h)]

/-- `drawOne` is the identity when repeats are off and the pool is empty. -/
theorem drawOne_of_pool_empty (r now : Nat) (suffix : String) (s : EngineState)
    (hrep : s.allowRepeats = false) (hpool : s.remaining = []) :
    drawOne r now suffix s = s := by
  unfold drawOne
  rcases Nat.eq_zero_or_pos (minLen s) with h | h
  · rw [if_pos (Or.inr h)]
  · rw [if_neg (by push_neg; exact ⟨h, Nat.pos_iff_ne_zero.mp h⟩),
      if_neg (by simp [hrep]), if_pos (by simp [hpool])]

/-- The repeat-mode success branch of `drawOne`, written out. -/
theorem drawOne_repeats (r now : Nat) (suffix : String) (s : EngineState)
    (hrep : s.allowRepeats = true) (hlen : minLen s ≠ 0) :
    drawOne r now suffix s =
      { s with drawn :=
          { id := mkId (r % minLen s) now suffix, index := r % minLen s,
            row := (s.data s.selectedCategory).getD (r % minLen s) [],
            category := s.selectedCategory } :: s.drawn } := by
  unfold drawOne
  rw [if_neg (by push_neg; exact ⟨Nat.pos_of_ne_zero hlen, hlen⟩), if_pos hrep]

/-- The no-repeat success branch of `drawOne`, written out. -/
theorem drawOne_noRepeats (r now : Nat) (suffix : String) (s : EngineState)
    (hrep : s.allowRepeats = false) (hlen : minLen s ≠ 0) (hpool : s.remaining ≠ []) :
    drawOne r now suffix s =
      { s with
        remaining := s.remaining.eraseIdx (r % s.remaining.length),
        drawn :=
          { id := mkId (s.remaining.getD (r % s.remaining.length) 0) now suffix,
            index := s.remaining.getD (r % s.remaining.length) 0,
            row := (s.data s.selectedCategory).getD
              (s.remaining.getD (r % s.remaining.length) 0) [],
            category := s.selectedCategory } :: s.drawn } := by
  unfold drawOne
  rw [if_neg (by push_neg; exact ⟨Nat.pos_of_ne_zero hlen, hlen⟩),
    if_neg (by simp [hrep]), if_neg (by simpa [List.length_eq_zero] using hpool)]

/-- Removing a uniformly indexed element of a non-empty pool: the pool is a
permutation of the removed element consed onto the rest. -/
theorem pool_perm (p : List Nat) (r : Nat) (hp : p ≠ []) :
    p.Perm (p.getD (r % p.length) 0 :: p.eraseIdx (r % p.length)) := by
  have hlen : 0 < p.length := List.length_pos.mpr hp
  have hi : r % p.length < p.length := Nat.mod_lt _ hlen
  rw [List.getD_eq_getElem _ _ hi, List.eraseIdx_eq_take_drop_succ]
  conv_lhs => rw [← List.take_append_drop (r % p.length) p,
    ← List.getElem_cons_drop p _ hi]
  exact List.perm_middle

/-- The without-repeat multi-draw invariant: the new cards prepend to the
history, the starting pool is a permutation of the drawn indices together with
the final pool, and the number of successful draws equals the number of
attempts capped by the pool size. -/
theorem drawMany_noRepeats (os : List Oracle) (s : EngineState)
    (hrep : s.allowRepeats = false) (hlen : minLen s ≠ 0) :
    ∃ new : List Drawn,
      (drawMany os s).drawn = new ++ s.drawn ∧
      s.remaining.Perm (new.map Drawn.index ++ (drawMany os s).remaining) ∧
      new.length = min os.length s.remaining.length ∧
      (drawMany os s).allowRepeats = false := by
  induction os generalizing s with
  | nil =>
    exact ⟨[], rfl, List.Perm.refl _, by simp, hrep⟩
  | cons o os ih =>
    have hstep_eq : drawMany (o :: os) s = drawMany os (drawOne o.1 o.2.1 o.2.2 s) := rfl
    rcases eq_or_ne s.remaining [] with hpool | hpool
    · have hid : drawOne o.1 o.2.1 o.2.2 s = s :=
        drawOne_of_pool_empty _ _ _ _ hrep hpool
      rw [hstep_eq, hid]
      obtain ⟨new, h1, h2, h3, h4⟩ := ih s hrep hlen
      refine ⟨new, h1, h2, ?_, h4⟩
      simp [hpool] at h3 ⊢
      exact h3
    · have hstep := drawOne_noRepeats o.1 o.2.1 o.2.2 s hrep hlen hpool
      have hpos : 0 < s.remaining.length := List.length_pos.mpr hpool
      have hi : o.1 % s.remaining.length < s.remaining.length := Nat.mod_lt _ hpos
      have hrep1 : (drawOne o.1 o.2.1 o.2.2 s).allowRepeats = false := by
        rw [hstep]; exact hrep
      have hlen1 : minLen (drawOne o.1 o.2.1 o.2.2 s) = minLen s := by
        rw [hstep]; rfl
      obtain ⟨new, h1, h2, h3, h4⟩ :=
        ih (drawOne o.1 o.2.1 o.2.2 s) hrep1 (by rw [hlen1]; exact hlen)
      refine ⟨new ++
        [{ id := mkId (s.remaining.getD (o.1 % s.remaining.length) 0) o.2.1 o.2.2,
           index := s.remaining.getD (o.1 % s.remaining.length) 0,
           row := (s.data s.selectedCategory).getD
             (s.remaining.getD (o.1 % s.remaining.length) 0) [],
           category := s.selectedCategory }], ?_, ?_, ?_, ?_⟩
      · rw [hstep_eq, h1]
        conv_lhs => rw [hstep]
        simp
      · have hperm1 : s.remaining.Perm
            (s.remaining.getD (o.1 % s.remaining.length) 0 ::
              (drawOne o.1 o.2.1 o.2.2 s).remaining) := by
          conv_rhs => rw [hstep]
          exact pool_perm s.remaining o.1 hpool
        rw [hstep_eq]
        have hchain := (hperm1.trans (h2.cons _)).trans List.perm_middle.symm
        simpa [List.map_append] using hchain
      · have hr1len : (drawOne o.1 o.2.1 o.2.2 s).remaining.length =
            s.remaining.length - 1 := by
          rw [hstep]
          simp [List.length_eraseIdx, hi]
        rw [hr1len] at h3
        simp only [List.length_append, List.length_singleton, List.length_cons,
          List.length_nil, h3]
        omega
      · rw [hstep_eq]
        exact h4

/-- Without repeats, a whole draw sequence over an empty pool is the
identity. -/
theorem drawMany_of_pool_empty (os : List Oracle) (s : EngineState)
    (hrep : s.allowRepeats = false) (hpool : s.remaining = []) :
    drawMany os s = s := by
  induction os with
  | nil => rfl
  | cons o os ih =>
    have hstep : drawOne o.1 o.2.1 o.2.2 s = s :=
      drawOne_of_pool_empty _ _ _ _ hrep hpool
    have : drawMany (o :: os) s = drawMany os (drawOne o.1 o.2.1 o.2.2 s) := rfl
    rw [this, hstep, ih]

/-- The repopulation effect only ever changes the pool. -/
theorem ensurePoolPopulated_frame (s : EngineState) :
    (ensurePoolPopulated s).drawn = s.drawn ∧
    (ensurePoolPopulated s).data = s.data ∧
    (ensurePoolPopulated s).selectedCategory = s.selectedCategory ∧
    (ensurePoolPopulated s).allowRepeats = s.allowRepeats := by
  unfold ensurePoolPopulated
  split
  · exact ⟨rfl, rfl, rfl, rfl⟩
  · exact ⟨rfl, rfl, rfl, rfl⟩

/-- The repopulation effect is the identity while the pool is non-empty. -/
theorem ensurePoolPopulated_of_ne (s : EngineState) (h : s.remaining ≠ []) :
    ensurePoolPopulated s = s := by
  unfold ensurePoolPopulated
  rw [if_neg (fun hc => h (List.length_eq_zero.mp hc.2))]

/-- Within one pool lifetime — no more draws than the pool holds — the
program's draw sequence (effect included) produces the same history as the
bare composition: the effect can fire only on the draw that empties the pool,
and then it only refills the pool. -/
theorem drawManyApp_drawn_eq (os : List Oracle) (s : EngineState)
    (hrep : s.allowRepeats = false) (hle : os.length ≤ s.remaining.length) :
    (drawManyApp os s).drawn = (drawMany os s).drawn := by
  induction os generalizing s with
  | nil => rfl
  | cons o os ih =>
    have hpool : s.remaining ≠ [] := by
      intro hnil
      rw [hnil] at hle
      simp at hle
    have hstepA : drawManyApp (o :: os) s =
        drawManyApp os (ensurePoolPopulated (drawOne o.1 o.2.1 o.2.2 s)) := rfl
    have hstepB : drawMany (o :: os) s = drawMany os (drawOne o.1 o.2.1 o.2.2 s) := rfl
    rcases eq_or_ne (minLen s) 0 with h0 | h0
    · have hid : drawOne o.1 o.2.1 o.2.2 s = s := drawOne_of_minLen_zero _ _ _ _ h0
      rw [hstepA, hstepB, hid, ensurePoolPopulated_of_ne s hpool]
      apply ih s hrep
      have hc : os.length + 1 ≤ s.remaining.length := by simpa using hle
      omega
    · have hstep := drawOne_noRepeats o.1 o.2.1 o.2.2 s hrep h0 hpool
      have hpos : 0 < s.remaining.length := List.length_pos.mpr hpool
      have hi : o.1 % s.remaining.length < s.remaining.length := Nat.mod_lt _ hpos
      have hr1len : (drawOne o.1 o.2.1 o.2.2 s).remaining.length =
          s.remaining.length - 1 := by
        rw [hstep]
        simp [List.length_eraseIdx, hi]
      rcases eq_or_ne (drawOne o.1 o.2.1 o.2.2 s).remaining [] with hemp | hne
      · have hones : s.remaining.length = 1 := by
          rw [hemp] at hr1len
          simp at hr1len
          omega
        have hos : os = [] := by
          rw [hones] at hle
          simp at hle
          exact hle
        subst hos
        rw [hstepA, hstepB]
        exact (ensurePoolPopulated_frame _).1
      · rw [hstepA, hstepB, ensurePoolPopulated_of_ne _ hne]
        refine ih (drawOne o.1 o.2.1 o.2.2 s) ?_ ?_
        · rw [hstep]
          exact hrep
        · rw [hr1len]
          have hc : os.length + 1 ≤ s.remaining.length := by simpa using hle
          omega

/-- Within a single pool lifetime — no more draws than the freshly populated
pool holds — the no-repeat guarantee does hold in the full program semantics:
every attempted draw succeeds and the drawn indices are pairwise distinct.
Beyond the lifetime the effect refills the pool and indices repeat, as the C1
and C2 evaluations show. -/
theorem drawManyApp_single_lifetime (os : List Oracle) (s : EngineState)
    (hrep : s.allowRepeats = false)
    (hpool : s.remaining = List.range (minLen s))
    (hle : os.length ≤ minLen s) :
    ∃ new : List Drawn,
      (drawManyApp os s).drawn = new ++ s.drawn ∧
      (new.map Drawn.index).Nodup ∧
      new.length = os.length := by
  rcases eq_or_ne (minLen s) 0 with h0 | h0
  · have hos : os = [] := by
      rw [h0] at hle
      exact List.length_eq_zero.mp (Nat.le_zero.mp hle)
    subst hos
    exact ⟨[], rfl, by simp, rfl⟩
  · have hlen : os.length ≤ s.remaining.length := by
      rw [hpool, List.length_range]
      exact hle
    have hdrawn := drawManyApp_drawn_eq os s hrep hlen
    obtain ⟨new, h1, h2, h3, _⟩ := drawMany_noRepeats os s hrep h0
    refine ⟨new, ?_, ?_, ?_⟩
    · rw [hdrawn]
      exact h1
    · have hnodup : (new.map Drawn.index ++ (drawMany os s).remaining).Nodup :=
        h2.nodup (by rw [hpool]; exact List.nodup_range _)
      exact hnodup.of_append_left
    · rw [h3, hpool, List.length_range]
      omega

/-! ### Claim theorems -/

/-- Claim C1 fails on the code: in the full program semantics the
pool-repopulation effect (the `useEffect` over `remaining.length`) refills the
pool the moment a draw empties it, so a four-draw sequence on the three-row
table with no intervening reshuffle, reload or category switch draws index 1
twice — the drawn `tableIndex` values are not pairwise distinct, and more
draws succeed than the table length at the last explicit (re)population.
Within a single pool lifetime the guarantee does hold, see
`drawManyApp_single_lifetime`. -/
theorem spec_c1 :
    (drawManyApp [(1, 0, "a"), (1, 1, "b"), (1, 2, "c"), (1, 3, "d")]
      threeRowState).drawn.map Drawn.index = [1, 0, 2, 1] ∧
    ¬ ((drawManyApp [(1, 0, "a"), (1, 1, "b"), (1, 2, "c"), (1, 3, "d")]
      threeRowState).drawn.map Drawn.index).Nodup ∧
    (drawManyApp [(1, 0, "a"), (1, 1, "b"), (1, 2, "c"), (1, 3, "d")]
      threeRowState).drawn.length = 4 := by
  decide

/-- Claim C2 fails on the code: after the third draw empties the pool, the
pool-repopulation effect immediately refills it to `[0, 1, 2]`, so the pool
does not stay empty and a fourth `draw()` is not a no-op — it succeeds,
growing the history to four cards (here repeating index 0) and leaving the
pool at `[1, 2]`. -/
theorem spec_c2 :
    (drawManyApp [(0, 0, "a"), (0, 1, "b"), (0, 2, "c")] threeRowState).drawn.length
      = 3 ∧
    (drawManyApp [(0, 0, "a"), (0, 1, "b"), (0, 2, "c")] threeRowState).remaining
      = [0, 1, 2] ∧
    (drawManyApp [(0, 0, "a"), (0, 1, "b"), (0, 2, "c"), (0, 3, "d")]
      threeRowState).drawn.length = 4 ∧
    (drawManyApp [(0, 0, "a"), (0, 1, "b"), (0, 2, "c"), (0, 3, "d")]
      threeRowState).remaining = [1, 2] ∧
    (drawManyApp [(0, 0, "a"), (0, 1, "b"), (0, 2, "c"), (0, 3, "d")]
      threeRowState).drawn.map Drawn.index = [0, 2, 1, 0] := by
  decide

/-- Claim C3: `draw()` is a silent no-op — the whole state, in particular
history, pool and tables, is unchanged — whenever the selected table is empty,
or repeats are off and the pool is empty. -/
theorem spec_c3 (s : EngineState) (r now : Nat) (suffix : String)
    (h : minLen s = 0 ∨ (s.allowRepeats = false ∧ s.remaining = [])) :
    drawOne r now suffix s = s := by
  rcases h with h | ⟨h1, h2⟩
  · exact drawOne_of_minLen_zero r now suffix s h
  · exact drawOne_of_pool_empty r now suffix s h1 h2

/-- Witness for C3 at the pristine state with no tables loaded. -/
theorem spec_c3_witness :
    (minLen emptyState = 0 ∨
      (emptyState.allowRepeats = false ∧ emptyState.remaining = [])) ∧
    drawOne 0 0 "a" emptyState = emptyState :=
  ⟨Or.inl rfl, spec_c3 emptyState 0 0 "a" (Or.inl rfl)⟩

/-- Claim C9: with repeats on and a non-empty selected table, `draw()` leaves
the pool (and the tables) unchanged and only prepends one history entry. -/
theorem spec_c9 (s : EngineState) (r now : Nat) (suffix : String)
    (hrep : s.allowRepeats = true) (hlen : minLen s ≠ 0) :
    (drawOne r now suffix s).remaining = s.remaining ∧
    (drawOne r now suffix s).data = s.data ∧
    (drawOne r now suffix s).drawn =
      { id := mkId (r % minLen s) now suffix, index := r % minLen s,
        row := (s.data s.selectedCategory).getD (r % minLen s) [],
        category := s.selectedCategory } :: s.drawn := by
  rw [drawOne_repeats r now suffix s hrep hlen]
  exact ⟨rfl, rfl, rfl⟩

/-- Witness for C9 at the one-row repeat-mode state. -/
theorem spec_c9_witness :
    oneRowState.allowRepeats = true ∧ minLen oneRowState ≠ 0 ∧
    ((drawOne 0 7 "ab" oneRowState).remaining = oneRowState.remaining ∧
     (drawOne 0 7 "ab" oneRowState).data = oneRowState.data ∧
     (drawOne 0 7 "ab" oneRowState).drawn =
       { id := mkId (0 % minLen oneRowState) 7 "ab",
         index := 0 % minLen oneRowState,
         row := (oneRowState.data oneRowState.selectedCategory).getD
           (0 % minLen oneRowState) [],
         category := oneRowState.selectedCategory } :: oneRowState.drawn) :=
  ⟨rfl, by decide, spec_c9 oneRowState 0 7 "ab" rfl (by decide)⟩

/-- Claim C10: `selectCategory` leaves the history untouched (and the tables),
while resetting the pool to empty. -/
theorem spec_c10 (category : Category) (s : EngineState) :
    (selectCategory category s).drawn = s.drawn ∧
    (selectCategory category s).remaining = [] ∧
    (selectCategory category s).data = s.data :=
  ⟨rfl, rfl, rfl⟩

/-- Claim C7: `handleLoad` replaces the addressed table (any records list,
including the empty one), clears pool and history, and does so whatever the
selected category is, which it leaves unchanged. -/
theorem spec_c7 (category : Category) (rows : List Row) (s : EngineState) :
    (handleLoad category rows s).data category = rows ∧
    (handleLoad category rows s).remaining = [] ∧
    (handleLoad category rows s).drawn = [] ∧
    (handleLoad category rows s).selectedCategory = s.selectedCategory ∧
    (∀ other : Category, other ≠ category →
      (handleLoad category rows s).data other = s.data other) := by
  refine ⟨?_, rfl, rfl, rfl, ?_⟩
  · simp [handleLoad]
  · intro other hother
    simp [handleLoad, hother]

/-- Claim C6: the pips counter is capped at 10 (an increment at 10 is a no-op
and further increments are idempotent), clearing resets to exactly 0, and over
every operation sequence from the initial state the counter stays in
`[0, 10]`. -/
theorem spec_c6 :
    (∀ n : Nat, addPip n ≤ 10) ∧
    addPip 10 = 10 ∧
    (∀ n : Nat, clearPips n = 0) ∧
    (∀ k : Nat, addPip^[k] 10 = 10) ∧
    (∀ ops : List MarkerOp, runMarkerOps ops initialPips ≤ 10) := by
  refine ⟨fun n => min_le_left _ _, rfl, fun _ => rfl, ?_, ?_⟩
  · intro k
    induction k with
    | zero => rfl
    | succ k ih =>
      rw [Function.iterate_succ_apply', ih]
      decide
  · intro ops
    have hinv : ∀ (l : List MarkerOp) (n : Nat), n ≤ 10 → runMarkerOps l n ≤ 10 := by
      intro l
      induction l with
      | nil => exact fun n h => h
      | cons op l ih =>
        intro n h
        cases op
        · exact ih (addPip n) (min_le_left _ _)
        · exact ih (clearPips n) (Nat.zero_le _)
    exact hinv ops 0 (by omega)

/-- Counterexample to C5 as stated: over a history holding two entries with
the same id — reachable, since ids are built from index, timestamp and a
6-character random suffix — `dismiss` removes both matching entries, not
exactly one. -/
theorem spec_c5_counterexample :
    twinIdState.drawn.length = 2 ∧
    (∀ c ∈ twinIdState.drawn, c.id = "x") ∧
    (dismiss "x" twinIdState).drawn = [] ∧
    ¬ ((dismiss "x" twinIdState).drawn.length + 1 = twinIdState.drawn.length) := by
  decide

/-- Claim C5, amended: for every history whose card ids are pairwise distinct,
`dismiss(id)` removes exactly the one matching entry, leaving the others in
their original relative order, and is a no-op when no entry has that id. -/
theorem spec_c5 (s : EngineState) (removeId : String)
    (hnodup : (s.drawn.map Drawn.id).Nodup) :
    ((∀ c ∈ s.drawn, c.id ≠ removeId) → dismiss removeId s = s) ∧
    (∀ c ∈ s.drawn, c.id = removeId →
      ∃ l₁ l₂, s.drawn = l₁ ++ c :: l₂ ∧ (dismiss removeId s).drawn = l₁ ++ l₂) := by
  constructor
  · intro hall
    have hfix : s.drawn.filter (fun c => c.id != removeId) = s.drawn :=
      List.filter_eq_self.mpr (fun a ha => by simpa using hall a ha)
    unfold dismiss
    rw [hfix]
  · intro c hc hid
    obtain ⟨l₁, l₂, hsplit⟩ := List.append_of_mem hc
    refine ⟨l₁, l₂, hsplit, ?_⟩
    unfold dismiss
    rw [hsplit] at hnodup ⊢
    rw [List.map_append, List.map_cons, List.nodup_append] at hnodup
    obtain ⟨hnd₁, hndc, hdisj⟩ := hnodup
    rw [List.nodup_cons] at hndc
    have h₁ : ∀ a ∈ l₁, (a.id != removeId) = true := by
      intro a ha
      have hmem : a.id ∈ l₁.map Drawn.id := List.mem_map_of_mem _ ha
      have hne : a.id ≠ c.id := fun he =>
        hdisj hmem (by rw [he]; exact List.mem_cons_self _ _)
      simpa using hid ▸ hne
    have h₂ : ∀ a ∈ l₂, (a.id != removeId) = true := by
      intro a ha
      have hmem : a.id ∈ l₂.map Drawn.id := List.mem_map_of_mem _ ha
      have hne : a.id ≠ c.id := fun he => hndc.1 (he ▸ hmem)
      simpa using hid ▸ hne
    have hcfalse : (c.id != removeId) = false := by simp [hid]
    rw [List.filter_append, List.filter_cons, hcfalse]
    rw [List.filter_eq_self.mpr h₁, List.filter_eq_self.mpr h₂]
    simp

/-- Witness for the amended C5 at a two-card history with distinct ids. -/
theorem spec_c5_witness :
    (twoCardState.drawn.map Drawn.id).Nodup ∧
    (((∀ c ∈ twoCardState.drawn, c.id ≠ "a") → dismiss "a" twoCardState = twoCardState) ∧
     (∀ c ∈ twoCardState.drawn, c.id = "a" →
       ∃ l₁ l₂, twoCardState.drawn = l₁ ++ c :: l₂ ∧
         (dismiss "a" twoCardState).drawn = l₁ ++ l₂)) :=
  ⟨by decide, spec_c5 twoCardState "a" (by decide)⟩

/-- Counterexample to C8 as stated: two repeat-mode draws in the same
millisecond (`Date.now() = 5`) whose random suffixes collide (`"ab"`) produce
two history entries with the same id, so history ids are not pairwise distinct
in every reachable state. -/
theorem spec_c8_counterexample :
    (drawOne 0 5 "ab" (drawOne 0 5 "ab" oneRowState)).drawn.length = 2 ∧
    ¬ ((drawOne 0 5 "ab" (drawOne 0 5 "ab" oneRowState)).drawn.map Drawn.id).Nodup := by
  decide

/-- Claim C8, amended: every successful draw prepends exactly one card whose
`tableIndex` is the chosen index, whose category is the selected one, whose
record is the selected table's row at that index and whose pips counter starts
at 0; its id is `mkId index now suffix`, and the history ids stay pairwise
distinct provided the freshly generated id differs from every id already in
the history (which the timestamp-plus-random-suffix generator does not
guarantee). -/
theorem spec_c8 (s : EngineState) (r now : Nat) (suffix : String)
    (hlen : minLen s ≠ 0)
    (hpool : s.allowRepeats = true ∨ s.remaining ≠ []) :
    ∃ index : Nat,
      (s.allowRepeats = true → index = r % minLen s) ∧
      (s.allowRepeats = false →
        index = s.remaining.getD (r % s.remaining.length) 0) ∧
      (drawOne r now suffix s).drawn =
        { id := mkId index now suffix, index := index,
          row := (s.data s.selectedCategory).getD index [],
          category := s.selectedCategory } :: s.drawn ∧
      initialPips = 0 ∧
      ((s.drawn.map Drawn.id).Nodup → mkId index now suffix ∉ s.drawn.map Drawn.id →
        ((drawOne r now suffix s).drawn.map Drawn.id).Nodup) := by
  cases hb : s.allowRepeats
  · rcases hpool with hr | hpne
    · rw [hb] at hr
      exact absurd hr (by simp)
    · rw [drawOne_noRepeats r now suffix s hb hlen hpne]
      refine ⟨s.remaining.getD (r % s.remaining.length) 0, by simp [hb], fun _ => rfl,
        rfl, rfl, ?_⟩
      intro hnd hfresh
      rw [List.map_cons, List.nodup_cons]
      exact ⟨hfresh, hnd⟩
  · rw [drawOne_repeats r now suffix s hb hlen]
    refine ⟨r % minLen s, fun _ => rfl, by simp [hb], rfl, rfl, ?_⟩
    intro hnd hfresh
    rw [List.map_cons, List.nodup_cons]
    exact ⟨hfresh, hnd⟩

/-- Witness for the amended C8 at the one-row repeat-mode state. -/
theorem spec_c8_witness :
    minLen oneRowState ≠ 0 ∧
    (oneRowState.allowRepeats = true ∨ oneRowState.remaining ≠ []) ∧
    ∃ index : Nat,
      (oneRowState.allowRepeats = true → index = 3 % minLen oneRowState) ∧
      (oneRowState.allowRepeats = false →
        index = oneRowState.remaining.getD (3 % oneRowState.remaining.length) 0) ∧
      (drawOne 3 9 "zz" oneRowState).drawn =
        { id := mkId index 9 "zz", index := index,
          row := (oneRowState.data oneRowState.selectedCategory).getD index [],
          category := oneRowState.selectedCategory } :: oneRowState.drawn ∧
      initialPips = 0 ∧
      ((oneRowState.drawn.map Drawn.id).Nodup →
        mkId index 9 "zz" ∉ oneRowState.drawn.map Drawn.id →
        ((drawOne 3 9 "zz" oneRowState).drawn.map Drawn.id).Nodup) :=
  ⟨by decide, Or.inl rfl, spec_c8 oneRowState 3 9 "zz" (by decide) (Or.inl rfl)⟩

/-- The first `forEach` pass of `handleBulkUpload` never reports skips. -/
theorem bulkMatch_skipped (parsed : List (String × Option (List Row))) :
    ∀ acc : BulkAcc, (parsed.foldl bulkMatchStep acc).skipped = acc.skipped := by
  induction parsed with
  | nil => exact fun _ => rfl
  | cons f parsed ih =>
    intro acc
    have hstep : (f :: parsed).foldl bulkMatchStep acc =
        parsed.foldl bulkMatchStep (bulkMatchStep acc f) := rfl
    rw [hstep, ih]
    obtain ⟨name, rows⟩ := f
    cases rows with
    | none => rfl
    | some rs =>
      unfold bulkMatchStep
      cases hdet : detectCategoryFromFilename (name, some rs).1 with
      | none => rfl
      | some detected => rfl

/-- The second `forEach` pass of `handleBulkUpload`: the i-th unmatched file is
assigned to the i-th category still in the fallback queue and reported as a
default assignment; the unmatched files beyond the queue's length are reported
as skipped. -/
theorem bulkFallback_assignments_skipped (u : List (String × List Row)) :
    ∀ (acc : BulkAcc) (queue : List Category),
      (u.foldl bulkFallbackStep (acc, queue)).1.assignments =
        acc.assignments ++ (u.zip queue).map
          (fun p => p.1.1 ++ " → " ++ getCategoryLabel p.2 ++ " (default)") ∧
      (u.foldl bulkFallbackStep (acc, queue)).1.skipped =
        acc.skipped ++ (u.drop queue.length).map (fun f => f.1) := by
  induction u with
  | nil =>
    intro acc queue
    simp
  | cons f u ih =>
    intro acc queue
    cases queue with
    | nil =>
      have hstep : (f :: u).foldl bulkFallbackStep (acc, ([] : List Category)) =
          u.foldl bulkFallbackStep
            ({ acc with skipped := acc.skipped ++ [f.1] }, []) := rfl
      obtain ⟨ha, hs⟩ := ih { acc with skipped := acc.skipped ++ [f.1] } []
      rw [hstep]
      constructor
      · rw [ha]
        simp
      · rw [hs]
        simp
    | cons cat rest =>
      have hstep : (f :: u).foldl bulkFallbackStep (acc, cat :: rest) =
          u.foldl bulkFallbackStep
            ({ acc with
               newData := fun c => if c = cat then some f.2 else acc.newData c,
               assigned := fun c => if c = cat then true else acc.assigned c,
               assignments := acc.assignments ++
                 [f.1 ++ " → " ++ getCategoryLabel cat ++ " (default)"] }, rest) := rfl
      obtain ⟨ha, hs⟩ := ih { acc with
        newData := fun c => if c = cat then some f.2 else acc.newData c,
        assigned := fun c => if c = cat then true else acc.assigned c,
        assignments := acc.assignments ++
          [f.1 ++ " → " ++ getCategoryLabel cat ++ " (default)"] } rest
      rw [hstep]
      constructor
      · rw [ha]
        simp
      · rw [hs]
        simp

/-- Claim C4: in a bulk upload, the unmatched files are assigned, in arrival
order, to the still-unassigned categories in the fixed enumeration order (the
fallback queue), each reported with a "(default)" note, and the unmatched
files left after the queue runs out — all four categories assigned — are
reported as skipped; on the design document's batch, `items_v2.csv` assigns to
items while `monsters.csv` and `random.csv` fall back to characters and
locations, both as "(default)" assignments, and nothing is skipped. -/
theorem spec_c4 :
    (∀ parsed : List (String × Option (List Row)),
      (handleBulkUpload parsed).assignments =
        (parsed.foldl bulkMatchStep bulkInit).assignments ++
          ((parsed.foldl bulkMatchStep bulkInit).unmatched.zip
            (CATEGORY_ORDER.filter (fun category =>
              ! (parsed.foldl bulkMatchStep bulkInit).assigned category))).map
            (fun p => p.1.1 ++ " → " ++ getCategoryLabel p.2 ++ " (default)") ∧
      (handleBulkUpload parsed).skipped =
        ((parsed.foldl bulkMatchStep bulkInit).unmatched.drop
          (CATEGORY_ORDER.filter (fun category =>
            ! (parsed.foldl bulkMatchStep bulkInit).assigned category)).length).map
          (fun f => f.1)) ∧
    (handleBulkUpload exampleBatch).assignments =
      ["items_v2.csv → Items", "monsters.csv → Characters (default)",
       "random.csv → Locations (default)"] ∧
    (handleBulkUpload exampleBatch).newData Category.items = some [[("n", "i")]] ∧
    (handleBulkUpload exampleBatch).newData Category.characters = some [[("n", "m")]] ∧
    (handleBulkUpload exampleBatch).newData Category.locations = some [[("n", "r")]] ∧
    (handleBulkUpload exampleBatch).newData Category.quests = none ∧
    (handleBulkUpload exampleBatch).skipped = [] ∧
    (handleBulkUpload exampleBatch).failures = [] := by
  refine ⟨?_, by decide, by decide, by decide, by decide, by decide, by decide, by decide⟩
  intro parsed
  obtain ⟨ha, hs⟩ := bulkFallback_assignments_skipped
    (parsed.foldl bulkMatchStep bulkInit).unmatched
    (parsed.foldl bulkMatchStep bulkInit)
    (CATEGORY_ORDER.filter (fun category =>
      ! (parsed.foldl bulkMatchStep bulkInit).assigned category))
  have h0 : (parsed.foldl bulkMatchStep bulkInit).skipped = [] :=
    bulkMatch_skipped parsed bulkInit
  constructor
  · exact ha
  · exact hs.trans (by rw [h0]; exact List.nil_append _)

/-- The three-row test state is exactly what loading `["A", "B", "C"]` for
characters into the pristine state and running the pool-repopulation effect
produces. -/
theorem threeRowState_reachable :
    ensurePoolPopulated (handleLoad Category.characters
      [[("value", "A")], [("value", "B")], [("value", "C")]] emptyState) =
      threeRowState := rfl

/-- The one-row repeat-mode test state arises from loading a single row,
running the pool-repopulation effect and switching repeats on. -/
theorem oneRowState_reachable :
    { ensurePoolPopulated (handleLoad Category.characters [[("value", "A")]]
        emptyState) with allowRepeats := true } = oneRowState := rfl
